import Mathlib

set_option maxRecDepth 8000

/-!
Shallow embedding of `src/bin/crc_64_nvme_checksum.rs`: a command-line program
that computes the CRC-64/NVME checksum of a file or of a string, either with
the accelerated (carryless-multiplication) digest from the `crc64fast_nvme`
library or with the `crc` crate's reference (table-driven) digest.

The two digest implementations themselves live outside this repository's
`src/` directory (only their caller does), so they are modelled from the
spec (§3 data model, §4.2 Reference Digest, §4.3 Accelerated Digest):

* the Reference Digest processes one byte at a time against a 256-entry
  lookup table derived from the reflected polynomial of the algorithm
  descriptor (straightforward polynomial division over the reflected bit
  order);
* the Accelerated Digest folds eight bytes per step: one fold step xors a
  little-endian 64-bit block into the register and multiplies by `x^64`
  modulo the polynomial — in the reflected bit order this multiplication
  with reduction is 64 iterations of the one-bit division step — while
  tail bytes shorter than one fold step are handled by a correctly-sized
  partial (bytewise) fold.

Bytes are modelled as natural numbers below 256; machine words as natural
numbers with explicit masks and shifts where overflow matters.
-/

/-- The parameter record type of the `crc` crate's `Algorithm<u64>`. -/
structure Algorithm where
  width : Nat
  poly : Nat
  init : Nat
  refin : Bool
  refout : Bool
  xorout : Nat
  check : Nat
  residue : Nat

/-- The `CRC_NVME` algorithm descriptor, field for field from the source. -/
def CRC_NVME : Algorithm :=
  { width := 64
    poly := 0xAD93D23594C93659
    init := 0xFFFFFFFFFFFFFFFF
    refin := true
    refout := true
    xorout := 0xFFFFFFFFFFFFFFFF
    check := 0xae8b14860a799888
    residue := 0x0000000000000000 }

/-- The chunk size for reading files: `100 * 1024 * 1024` bytes. -/
def CHUNK_SIZE : Nat := 100 * 1024 * 1024

/-- Reversal of the 64 low bits of a natural number (the `reverse_bits`
operation both digest implementations apply to reflected parameters). -/
def reflect64 (x : Nat) : Nat :=
  (List.range 64).foldl (fun a i => a ^^^ (((x >>> i) &&& 1) <<< (63 - i))) 0

/-- Modelled from the spec: the reflected form of the descriptor's
polynomial, the divisor constant actually used by the reflected
(`refin = true`) CRC recurrence. -/
def rpoly : Nat := reflect64 CRC_NVME.poly

/-- Modelled from the spec: one step of polynomial division over the
reflected bit order — shift the register one bit and, when the dropped bit
was set, xor in the reflected polynomial. -/
def bitstep (r : Nat) : Nat :=
  (r >>> 1) ^^^ (if r &&& 1 = 1 then rpoly else 0)

/-- `k` iterations of the one-bit division step. -/
def bitstepN (k : Nat) (r : Nat) : Nat := bitstep^[k] r

/-- Modelled from the spec: the reflected CRC recurrence folding one input
byte into the register (xor the byte at the low end, then divide out eight
bits). -/
def byteStepBits (r b : Nat) : Nat := bitstepN 8 (r ^^^ b)

/-- Modelled from the spec: entry `i` of the Reference Digest's derived
lookup table — eight division steps applied to the byte value `i`. -/
def tableEntry (i : Nat) : Nat := bitstepN 8 i

/-- Modelled from the spec: the 256-entry lookup table covering all
possible leading-byte values under the given polynomial. -/
def crcTable : List Nat := (List.range 256).map tableEntry

/-- Modelled from the spec: the Reference Digest's table-driven per-byte
update, `crc = table[(crc ^ byte) & 0xFF] ^ (crc >> 8)`. -/
def tableStep (r b : Nat) : Nat :=
  (r >>> 8) ^^^ crcTable.getD ((r ^^^ b) &&& 255) 0

/-- Modelled from the spec: the Reference Digest's initial register — the
descriptor's `init` in reflected bit order. -/
def crcDigestNew : Nat := reflect64 CRC_NVME.init

/-- Modelled from the spec: `Digest::update` of the Reference Digest folds
each byte in order into the register via the table-driven step. -/
def crcDigestUpdate (st : Nat) (bs : List Nat) : Nat := bs.foldl tableStep st

/-- Modelled from the spec: `Digest::finalize` of the Reference Digest
applies `xorout` to the register and returns the result. -/
def crcDigestFinalize (st : Nat) : Nat := st ^^^ CRC_NVME.xorout

/-- Little-endian packing of a byte list into one machine word, as the
accelerated digest loads an 8-byte block. -/
def wordOfBytesLE : List Nat → Nat
  | [] => 0
  | b :: bs => b ^^^ (wordOfBytesLE bs <<< 8)

/-- Modelled from the spec: one fold step of the Accelerated Digest — xor
an 8-byte block into the register and multiply by `x^64` modulo the
polynomial, which in the reflected bit order is 64 one-bit division
steps. -/
def foldWordStep (st w : Nat) : Nat := bitstepN 64 (st ^^^ w)

/-- Modelled from the spec: the Accelerated Digest's update — fold eight
bytes per step for as long as a full block remains, then handle the tail
(shorter than one fold step) by a correctly-sized partial, bytewise
fold. -/
def simdUpdate : Nat → List Nat → Nat
  | st, b0 :: b1 :: b2 :: b3 :: b4 :: b5 :: b6 :: b7 :: rest =>
      simdUpdate (foldWordStep st (wordOfBytesLE [b0, b1, b2, b3, b4, b5, b6, b7])) rest
  | st, bs => bs.foldl byteStepBits st

/-- Modelled from the spec: `Digest::new()` of the Accelerated Digest —
the same initial register as the Reference Digest. -/
def simdNew : Nat := reflect64 CRC_NVME.init

/-- Modelled from the spec: `Digest::write` of the Accelerated Digest. -/
def simdWrite (st : Nat) (bs : List Nat) : Nat := simdUpdate st bs

/-- Modelled from the spec: `Digest::sum64()` of the Accelerated Digest —
apply `xorout` to the register. -/
def simdSum64 (st : Nat) : Nat := st ^^^ CRC_NVME.xorout

/-- `calculate_crc_64_simd_from_string`, over the string's byte
representation: `Digest::new()`, one `write` with all the bytes,
`sum64()`. -/
def calculate_crc_64_simd_from_string (bs : List Nat) : Nat :=
  simdSum64 (simdWrite simdNew bs)

/-- `calculate_crc_64_validate_from_string`, over the string's byte
representation: a fresh `crc::Crc` digest, one `update` with all the
bytes, `finalize`. -/
def calculate_crc_64_validate_from_string (bs : List Nat) : Nat :=
  crcDigestFinalize (crcDigestUpdate crcDigestNew bs)

/-- One observable outcome of a `reader.read(&mut buffer)` call in the
chunked file loop: either the bytes actually read (an empty chunk is the
end of the source) or an I/O failure with its message. -/
inductive ReadEvent where
  | chunk (bs : List Nat)
  | readErr (msg : String)
deriving DecidableEq

/-- The chunked loop of `calculate_crc_64_simd_from_file`: read; stop and
`sum64` on a zero-length read (or an exhausted source); `write` exactly
the bytes read otherwise; propagate a read error immediately. -/
def loopSimd : Nat → List ReadEvent → Except String Nat
  | st, [] => .ok (simdSum64 st)
  | st, .chunk [] :: _ => .ok (simdSum64 st)
  | st, .chunk (b :: bs) :: rest => loopSimd (simdWrite st (b :: bs)) rest
  | _, .readErr e :: _ => .error e

/-- The chunked loop of `calculate_crc_64_validate_from_file`, identical
in shape but driving the Reference Digest. -/
def loopValidate : Nat → List ReadEvent → Except String Nat
  | st, [] => .ok (crcDigestFinalize st)
  | st, .chunk [] :: _ => .ok (crcDigestFinalize st)
  | st, .chunk (b :: bs) :: rest => loopValidate (crcDigestUpdate st (b :: bs)) rest
  | _, .readErr e :: _ => .error e

/-- `calculate_crc_64_simd_from_file`: `File::open` may fail (the `?`
operator propagates the error); otherwise the chunked loop runs over the
sequence of read outcomes. -/
def calculate_crc_64_simd_from_file
    (openResult : Except String (List ReadEvent)) : Except String Nat :=
  match openResult with
  | .error e => .error e
  | .ok evs => loopSimd simdNew evs

/-- `calculate_crc_64_validate_from_file`: same control flow as the
accelerated file function, driving the Reference Digest. -/
def calculate_crc_64_validate_from_file
    (openResult : Except String (List ReadEvent)) : Except String Nat :=
  match openResult with
  | .error e => .error e
  | .ok evs => loopValidate crcDigestNew evs

/-- Splitting a byte sequence into consecutive segments of `k + 1` bytes
(the last segment may be shorter), as a reader delivering at most `k + 1`
bytes per `read` call does. -/
def chunksOf (k : Nat) : List Nat → List (List Nat)
  | [] => []
  | b :: bs => (b :: bs.take k) :: chunksOf k (bs.drop k)
termination_by bs => bs.length
decreasing_by simp [List.length_drop]; omega

/-- One line printed by the program: the usage text, the invalid-input-type
message, the two failure reports (each naming the offending path), or the
decimal checksum. -/
inductive OutLine where
  | usage
  | invalidType
  | couldNotOpen (path : String)
  | errorProcessing (path : String) (err : String)
  | checksum (value : Nat)
deriving DecidableEq

/-- `let use_slow_validation = args.len() == 4 && args[3] == "--validate-slow"`,
exactly as both arms of `main` compute it. -/
def use_slow_validation (args : List String) : Bool :=
  args.length == 4 && args.getD 3 "" == "--validate-slow"

/-- The whole of `main`, over the argument vector (whose first element is
the program name), an abstract `fs::metadata` success predicate, an
abstract file-opening function yielding the sequence of read outcomes, and
the byte representation of strings.  Returns the printed lines and the
process exit code. -/
def mainRun (meta : String → Bool)
    (openRes : String → Except String (List ReadEvent))
    (strBytes : String → List Nat) (args : List String) :
    List OutLine × Nat :=
  if args.length < 3 then
    ([OutLine.usage], 1)
  else if args.getD 1 "" = "--file" then
    if meta (args.getD 2 "") = false then
      ([OutLine.couldNotOpen (args.getD 2 "")], 1)
    else
      match
        if use_slow_validation args then
          calculate_crc_64_validate_from_file (openRes (args.getD 2 ""))
        else
          calculate_crc_64_simd_from_file (openRes (args.getD 2 ""))
      with
      | .ok checksum => ([OutLine.checksum checksum], 0)
      | .error e => ([OutLine.errorProcessing (args.getD 2 "") e], 1)
  else if args.getD 1 "" = "--string" then
    ([OutLine.checksum
        (if use_slow_validation args then
          calculate_crc_64_validate_from_string (strBytes (args.getD 2 ""))
        else
          calculate_crc_64_simd_from_string (strBytes (args.getD 2 "")))], 0)
  else
    ([OutLine.invalidType], 1)

/-- Byte representation of an ASCII string argument (every claim about
concrete string inputs uses ASCII text, where UTF-8 bytes are the
character codes). -/
def asciiBytes (s : String) : List Nat := s.data.map Char.toNat

/-- All entries of a byte list are bytes (below 256). -/
def bytesOk (bs : List Nat) : Bool := bs.all fun b => decide (b < 256)

/-- All chunks of a read-outcome sequence contain only bytes. -/
def eventsOk (evs : List ReadEvent) : Bool :=
  evs.all fun ev =>
    match ev with
    | .chunk bs => bytesOk bs
    | .readErr _ => true

/-! ### Bitwise groundwork: the division step is linear over xor -/

theorem bytesOk_iff (bs : List Nat) : bytesOk bs = true ↔ ∀ b ∈ bs, b < 256 := by
  simp [bytesOk, List.all_eq_true]

theorem xor_shiftRight (a b n : Nat) : (a ^^^ b) >>> n = (a >>> n) ^^^ (b >>> n) := by
  apply Nat.eq_of_testBit_eq
  intro i
  simp [Nat.testBit_xor, Nat.testBit_shiftRight]

theorem xor_left_comm (a b c : Nat) : a ^^^ (b ^^^ c) = b ^^^ (a ^^^ c) := by
  rw [← Nat.xor_assoc, Nat.xor_comm a b, Nat.xor_assoc]

theorem xor_cancel_left (a b : Nat) : a ^^^ (a ^^^ b) = b := by
  rw [← Nat.xor_assoc, Nat.xor_self, Nat.zero_xor]

theorem bitstep_xor (a b : Nat) : bitstep (a ^^^ b) = bitstep a ^^^ bitstep b := by
  have hand : (a ^^^ b) &&& 1 = (a &&& 1) ^^^ (b &&& 1) := Nat.and_xor_distrib_right
  have ha : a &&& 1 = 0 ∨ a &&& 1 = 1 := by
    have := Nat.mod_two_eq_zero_or_one a
    simpa [Nat.and_one_is_mod] using this
  have hb : b &&& 1 = 0 ∨ b &&& 1 = 1 := by
    have := Nat.mod_two_eq_zero_or_one b
    simpa [Nat.and_one_is_mod] using this
  unfold bitstep
  rw [xor_shiftRight, hand]
  rcases ha with ha | ha <;> rcases hb with hb | hb <;>
    simp [ha, hb, Nat.xor_assoc, Nat.xor_comm, xor_left_comm, Nat.xor_self,
      xor_cancel_left]

theorem bitstepN_succ (k r : Nat) : bitstepN (k + 1) r = bitstepN k (bitstep r) :=
  Function.iterate_succ_apply bitstep k r

theorem bitstepN_add (m n r : Nat) : bitstepN (m + n) r = bitstepN m (bitstepN n r) :=
  Function.iterate_add_apply bitstep m n r

theorem bitstepN_xor (k a b : Nat) :
    bitstepN k (a ^^^ b) = bitstepN k a ^^^ bitstepN k b := by
  induction k generalizing a b with
  | zero => rfl
  | succ n ih => rw [bitstepN_succ, bitstepN_succ, bitstepN_succ, bitstep_xor, ih]

theorem bitstep_double (x : Nat) : bitstep (2 * x) = x := by
  unfold bitstep
  have h1 : (2 * x) &&& 1 = 0 := by
    rw [Nat.and_one_is_mod, Nat.mul_mod_right]
  have h2 : (2 * x) >>> 1 = x := by
    rw [Nat.shiftRight_succ, Nat.shiftRight_zero, Nat.mul_div_cancel_left x (by omega)]
  simp [h1, h2]

theorem bitstepN_shiftLeft (k b : Nat) : bitstepN k (b <<< k) = b := by
  induction k generalizing b with
  | zero => simp [bitstepN]
  | succ n ih =>
    rw [bitstepN_succ, Nat.shiftLeft_succ, bitstep_double]
    exact ih b

theorem shiftRight8_xor_of_lt (r b : Nat) (hb : b < 256) :
    (r ^^^ b) >>> 8 = r >>> 8 := by
  rw [xor_shiftRight]
  have hb8 : b >>> 8 = 0 := by
    rw [Nat.shiftRight_eq_div_pow]
    exact Nat.div_eq_of_lt (by omega)
  rw [hb8, Nat.xor_zero]

theorem decomp255 (x : Nat) : (x &&& 255) ^^^ ((x >>> 8) <<< 8) = x := by
  have h255 : (255 : Nat) = 2 ^ 8 - 1 := by norm_num
  apply Nat.eq_of_testBit_eq
  intro i
  rw [h255]
  simp only [Nat.testBit_xor, Nat.testBit_and, Nat.testBit_two_pow_sub_one,
    Nat.testBit_shiftLeft, Nat.testBit_shiftRight]
  by_cases hi : i < 8
  · simp [hi, Nat.not_le.mpr hi]
  · have h8 : 8 ≤ i := Nat.not_lt.mp hi
    have : 8 + (i - 8) = i := by omega
    simp [hi, h8, this]

/-! ### The table-driven byte step agrees with raw polynomial division -/

theorem crcTable_getD (i : Nat) (h : i < 256) : crcTable.getD i 0 = tableEntry i := by
  simp [crcTable, List.getD_eq_getElem?_getD, List.getElem?_map, List.getElem?_range h]

theorem tableStep_eq_byteStepBits (r b : Nat) (hb : b < 256) :
    tableStep r b = byteStepBits r b := by
  have hidx : (r ^^^ b) &&& 255 < 256 := Nat.lt_succ_of_le Nat.and_le_right
  unfold tableStep byteStepBits
  rw [crcTable_getD _ hidx]
  unfold tableEntry
  conv_rhs => rw [← decomp255 (r ^^^ b)]
  rw [bitstepN_xor, bitstepN_shiftLeft, shiftRight8_xor_of_lt r b hb]
  exact Nat.xor_comm _ _

theorem crcDigestUpdate_eq_foldlBits (bs : List Nat) (st : Nat)
    (h : ∀ b ∈ bs, b < 256) :
    crcDigestUpdate st bs = bs.foldl byteStepBits st := by
  induction bs generalizing st with
  | nil => rfl
  | cons b rest ih =>
    simp only [crcDigestUpdate, List.foldl_cons]
    rw [tableStep_eq_byteStepBits _ _ (h b (by simp))]
    simpa [crcDigestUpdate] using ih (byteStepBits st b) fun x hx => h x (by simp [hx])

/-! ### The eight-byte fold step agrees with eight byte steps -/

theorem bitstepN_word (bs : List Nat) (r : Nat) (h : ∀ b ∈ bs, b < 256) :
    bitstepN (8 * bs.length) (r ^^^ wordOfBytesLE bs) = bs.foldl byteStepBits r := by
  induction bs generalizing r with
  | nil => simp [wordOfBytesLE, bitstepN]
  | cons b rest ih =>
    have hlen : 8 * (b :: rest).length = 8 * rest.length + 8 := by
      simp [List.length_cons]; ring
    rw [hlen, bitstepN_add]
    have hstep : bitstepN 8 (r ^^^ wordOfBytesLE (b :: rest))
        = byteStepBits r b ^^^ wordOfBytesLE rest := by
      rw [wordOfBytesLE, ← Nat.xor_assoc, bitstepN_xor, bitstepN_shiftLeft]
      rfl
    rw [hstep]
    simp only [List.foldl_cons]
    exact ih (byteStepBits r b) fun x hx => h x (by simp [hx])

theorem simdUpdate_eq_foldlBits (st : Nat) (bs : List Nat) :
    (∀ b ∈ bs, b < 256) → simdUpdate st bs = bs.foldl byteStepBits st := by
  induction st, bs using simdUpdate.induct with
  | case1 st b0 b1 b2 b3 b4 b5 b6 b7 rest ih =>
    intro h
    have hblk : ∀ x ∈ [b0, b1, b2, b3, b4, b5, b6, b7], x < 256 := by
      intro x hx
      apply h
      simp only [List.mem_cons] at hx ⊢
      tauto
    have hw : foldWordStep st (wordOfBytesLE [b0, b1, b2, b3, b4, b5, b6, b7])
        = [b0, b1, b2, b3, b4, b5, b6, b7].foldl byteStepBits st := by
      simpa [foldWordStep] using bitstepN_word [b0, b1, b2, b3, b4, b5, b6, b7] st hblk
    have hrest : ∀ x ∈ rest, x < 256 := by
      intro x hx
      apply h
      simp only [List.mem_cons]
      tauto
    rw [simdUpdate, ih hrest, hw]
    simp only [List.foldl_cons, List.foldl_nil]
  | case2 st bs hshape =>
    intro _
    rw [simdUpdate]
    exact hshape

theorem simdWrite_eq_crcDigestUpdate (st : Nat) (bs : List Nat)
    (h : ∀ b ∈ bs, b < 256) :
    simdWrite st bs = crcDigestUpdate st bs := by
  rw [simdWrite, simdUpdate_eq_foldlBits st bs h, crcDigestUpdate_eq_foldlBits bs st h]

/-! ### Streaming: updates compose over concatenation -/

theorem crcDigestUpdate_append (st : Nat) (a b : List Nat) :
    crcDigestUpdate st (a ++ b) = crcDigestUpdate (crcDigestUpdate st a) b := by
  simp [crcDigestUpdate, List.foldl_append]

theorem crcDigestUpdate_flatten (st : Nat) (segs : List (List Nat)) :
    crcDigestUpdate st segs.flatten = segs.foldl crcDigestUpdate st := by
  simp only [crcDigestUpdate]
  rw [List.foldl_flatten]
  rfl

theorem foldl_simdWrite_eq (segs : List (List Nat)) (st : Nat)
    (h : ∀ s ∈ segs, ∀ b ∈ s, b < 256) :
    segs.foldl simdWrite st = crcDigestUpdate st segs.flatten := by
  induction segs generalizing st with
  | nil => rfl
  | cons s rest ih =>
    simp only [List.foldl_cons, List.flatten_cons]
    rw [crcDigestUpdate_append, simdWrite_eq_crcDigestUpdate st s (h s (by simp))]
    exact ih _ fun x hx => h x (by simp [hx])

/-! ### The chunked loops against whole-sequence processing -/

theorem loopSimd_chunks (chunks : List (List Nat)) (st : Nat)
    (hne : ∀ c ∈ chunks, c ≠ [])
    (h : ∀ c ∈ chunks, ∀ b ∈ c, b < 256) :
    loopSimd st (chunks.map ReadEvent.chunk)
      = .ok (simdSum64 (crcDigestUpdate st chunks.flatten)) := by
  induction chunks generalizing st with
  | nil => rfl
  | cons c rest ih =>
    obtain ⟨b, bs, rfl⟩ : ∃ b bs, c = b :: bs := by
      cases c with
      | nil => exact absurd rfl (hne [] (by simp))
      | cons b bs => exact ⟨b, bs, rfl⟩
    simp only [List.map_cons, loopSimd, List.flatten_cons]
    rw [simdWrite_eq_crcDigestUpdate st _ (h _ (by simp)), crcDigestUpdate_append]
    exact ih _ (fun x hx => hne x (by simp [hx])) fun x hx => h x (by simp [hx])

theorem loopValidate_chunks (chunks : List (List Nat)) (st : Nat)
    (hne : ∀ c ∈ chunks, c ≠ []) :
    loopValidate st (chunks.map ReadEvent.chunk)
      = .ok (crcDigestFinalize (crcDigestUpdate st chunks.flatten)) := by
  induction chunks generalizing st with
  | nil => rfl
  | cons c rest ih =>
    obtain ⟨b, bs, rfl⟩ : ∃ b bs, c = b :: bs := by
      cases c with
      | nil => exact absurd rfl (hne [] (by simp))
      | cons b bs => exact ⟨b, bs, rfl⟩
    simp only [List.map_cons, loopValidate, List.flatten_cons]
    rw [crcDigestUpdate_append]
    exact ih _ fun x hx => hne x (by simp [hx])

theorem loopSimd_eq_loopValidate (evs : List ReadEvent) (st : Nat)
    (h : eventsOk evs = true) :
    loopSimd st evs = loopValidate st evs := by
  induction evs generalizing st with
  | nil => rfl
  | cons ev rest ih =>
    have hrest : eventsOk rest = true := by
      simp only [eventsOk, List.all_cons, Bool.and_eq_true] at h
      exact h.2
    match ev with
    | .chunk [] => rfl
    | .chunk (b :: bs) =>
      have hbytes : ∀ x ∈ b :: bs, x < 256 := by
        simp only [eventsOk, List.all_cons, Bool.and_eq_true] at h
        exact (bytesOk_iff (b :: bs)).mp h.1
      simp only [loopSimd, loopValidate]
      rw [simdWrite_eq_crcDigestUpdate st _ hbytes]
      exact ih _ hrest
    | .readErr e => rfl

/-! ### Uniform chunking covers the byte sequence exactly -/

theorem chunksOf_flatten (k : Nat) (bs : List Nat) : (chunksOf k bs).flatten = bs := by
  induction bs using chunksOf.induct k with
  | case1 => simp [chunksOf]
  | case2 b bs ih =>
    rw [chunksOf]
    simp only [List.flatten_cons, ih]
    simp [List.take_append_drop]

theorem chunksOf_ne_nil (k : Nat) (bs : List Nat) : ∀ c ∈ chunksOf k bs, c ≠ [] := by
  induction bs using chunksOf.induct k with
  | case1 => intro c hc; simp [chunksOf] at hc
  | case2 b bs ih =>
    intro c hc
    rw [chunksOf] at hc
    rcases List.mem_cons.mp hc with hc | hc
    · subst hc; simp
    · exact ih c hc

theorem chunksOf_bytes (k : Nat) (bs : List Nat) (h : ∀ b ∈ bs, b < 256) :
    ∀ c ∈ chunksOf k bs, ∀ x ∈ c, x < 256 := by
  intro c hc x hx
  apply h
  rw [← chunksOf_flatten k bs]
  exact List.mem_flatten.mpr ⟨c, hc, hx⟩

/-! ### Claims -/

/-- C1: for every byte sequence of every length, the accelerated
(carryless-multiplication) digest and the reference (table-driven
polynomial-division) digest produce the same final 64-bit checksum —
`calculate_crc_64_simd_from_string` agrees with
`calculate_crc_64_validate_from_string` on every byte sequence, and the two
file-path functions agree on identical sequences of read outcomes. -/
theorem c1_accel_eq_reference :
    (∀ bs : List Nat, bytesOk bs = true →
      calculate_crc_64_simd_from_string bs = calculate_crc_64_validate_from_string bs)
    ∧ (∀ evs : List ReadEvent, eventsOk evs = true →
      calculate_crc_64_simd_from_file (Except.ok evs)
        = calculate_crc_64_validate_from_file (Except.ok evs)) := by
  constructor
  · intro bs h
    unfold calculate_crc_64_simd_from_string calculate_crc_64_validate_from_string
    rw [simdWrite_eq_crcDigestUpdate _ _ ((bytesOk_iff bs).mp h)]
    rfl
  · intro evs h
    unfold calculate_crc_64_simd_from_file calculate_crc_64_validate_from_file
    exact loopSimd_eq_loopValidate evs simdNew h

/-- Witness for C1 at the nine ASCII bytes of "123456789" (string entry
point) and at a two-chunk file. -/
theorem c1_witness :
    calculate_crc_64_simd_from_string [49, 50, 51, 52, 53, 54, 55, 56, 57]
      = calculate_crc_64_validate_from_string [49, 50, 51, 52, 53, 54, 55, 56, 57]
    ∧ calculate_crc_64_simd_from_file
        (Except.ok [ReadEvent.chunk [0, 1, 255], ReadEvent.chunk [7]])
      = calculate_crc_64_validate_from_file
        (Except.ok [ReadEvent.chunk [0, 1, 255], ReadEvent.chunk [7]]) :=
  ⟨c1_accel_eq_reference.1 [49, 50, 51, 52, 53, 54, 55, 56, 57] (by decide),
   c1_accel_eq_reference.2 [ReadEvent.chunk [0, 1, 255], ReadEvent.chunk [7]] (by decide)⟩

/-- C2: for any fixed byte sequence and any partition of it into
consecutive segments (empty segments and the empty partition included),
feeding the segments to a digest via successive update/write calls and
finalizing equals a single update with the whole sequence, for both
digests; consequently the chunked file loop over segments of any positive
size `k + 1` returns the same checksum as single-segment processing. -/
theorem c2_streaming_invariance :
    (∀ segs : List (List Nat), (∀ s ∈ segs, bytesOk s = true) →
      simdSum64 (segs.foldl simdWrite simdNew)
        = calculate_crc_64_simd_from_string segs.flatten)
    ∧ (∀ segs : List (List Nat),
      crcDigestFinalize (segs.foldl crcDigestUpdate crcDigestNew)
        = calculate_crc_64_validate_from_string segs.flatten)
    ∧ (∀ (k : Nat) (bs : List Nat), bytesOk bs = true →
      calculate_crc_64_simd_from_file
          (Except.ok ((chunksOf k bs).map ReadEvent.chunk))
        = Except.ok (calculate_crc_64_simd_from_string bs))
    ∧ (∀ (k : Nat) (bs : List Nat),
      calculate_crc_64_validate_from_file
          (Except.ok ((chunksOf k bs).map ReadEvent.chunk))
        = Except.ok (calculate_crc_64_validate_from_string bs)) := by
  have hflatten : ∀ segs : List (List Nat), (∀ s ∈ segs, bytesOk s = true) →
      ∀ b ∈ (segs : List (List Nat)).flatten, b < 256 := by
    intro segs h b hb
    obtain ⟨s, hs, hbs⟩ := List.mem_flatten.mp hb
    exact (bytesOk_iff s).mp (h s hs) b hbs
  refine ⟨?_, ?_, ?_, ?_⟩
  · intro segs h
    have hsegs : ∀ s ∈ segs, ∀ b ∈ s, b < 256 := fun s hs => (bytesOk_iff s).mp (h s hs)
    unfold calculate_crc_64_simd_from_string
    rw [foldl_simdWrite_eq segs simdNew hsegs,
      simdWrite_eq_crcDigestUpdate _ _ (hflatten segs h)]
  · intro segs
    unfold calculate_crc_64_validate_from_string
    rw [crcDigestUpdate_flatten]
  · intro k bs h
    show loopSimd simdNew ((chunksOf k bs).map ReadEvent.chunk)
        = Except.ok (calculate_crc_64_simd_from_string bs)
    unfold calculate_crc_64_simd_from_string
    rw [loopSimd_chunks _ _ (chunksOf_ne_nil k bs)
        (chunksOf_bytes k bs ((bytesOk_iff bs).mp h)),
      chunksOf_flatten, simdWrite_eq_crcDigestUpdate _ _ ((bytesOk_iff bs).mp h)]
  · intro k bs
    show loopValidate crcDigestNew ((chunksOf k bs).map ReadEvent.chunk)
        = Except.ok (calculate_crc_64_validate_from_string bs)
    unfold calculate_crc_64_validate_from_string
    rw [loopValidate_chunks _ _ (chunksOf_ne_nil k bs), chunksOf_flatten]

/-- Witness for C2: a three-segment partition (with an empty segment) of a
ten-byte sequence, and chunked file processing with segment size 2. -/
theorem c2_witness :
    simdSum64 ([[49, 50], [], [51, 52, 53, 54, 55, 56, 57, 58]].foldl simdWrite simdNew)
      = calculate_crc_64_simd_from_string
          ([[49, 50], [], [51, 52, 53, 54, 55, 56, 57, 58]] : List (List Nat)).flatten
    ∧ calculate_crc_64_simd_from_file
        (Except.ok ((chunksOf 1 [49, 50, 51, 52, 53, 54, 55, 56, 57]).map ReadEvent.chunk))
      = Except.ok (calculate_crc_64_simd_from_string [49, 50, 51, 52, 53, 54, 55, 56, 57]) :=
  ⟨c2_streaming_invariance.1 [[49, 50], [], [51, 52, 53, 54, 55, 56, 57, 58]] (by decide),
   c2_streaming_invariance.2.2.1 1 [49, 50, 51, 52, 53, 54, 55, 56, 57] (by decide)⟩

/-- C3: both digest implementations, applied to the 9-byte ASCII sequence
"123456789", return exactly `0xae8b14860a799888`, the `check` field of the
`CRC_NVME` descriptor. -/
theorem c3_check_value :
    calculate_crc_64_simd_from_string (asciiBytes "123456789") = 0xae8b14860a799888
    ∧ calculate_crc_64_validate_from_string (asciiBytes "123456789") = 0xae8b14860a799888
    ∧ CRC_NVME.check = 0xae8b14860a799888 :=
  ⟨by decide, by decide, rfl⟩

/-- C5: both digest implementations, given zero input bytes, do not fail
and return the constant obtained from the descriptor's `init` by output
reflection and xor with `xorout` — the same computable constant (namely 0)
for both. -/
theorem c5_empty_input :
    calculate_crc_64_simd_from_string [] = reflect64 CRC_NVME.init ^^^ CRC_NVME.xorout
    ∧ calculate_crc_64_validate_from_string [] = reflect64 CRC_NVME.init ^^^ CRC_NVME.xorout
    ∧ reflect64 CRC_NVME.init ^^^ CRC_NVME.xorout = 0 :=
  ⟨by decide, by decide, by decide⟩

/-! ### Claims about the command-line surface -/

theorem use_slow_iff (args : List String) :
    use_slow_validation args = true ↔
      (args.length = 4 ∧ args.getD 3 "" = "--validate-slow") := by
  simp [use_slow_validation]

/-- C4 counterexample: invoking with mode `--string` and value `123456789`
does not print the decimal number 15024448725040358071 — the checksum of
"123456789" is 0xae8b14860a799888 = 12577168950296156296. -/
theorem c4_counterexample :
    mainRun (fun _ => true) (fun _ => Except.ok []) asciiBytes
        ["crc_64_nvme_checksum", "--string", "123456789"]
      ≠ ([OutLine.checksum 15024448725040358071], 0) := by decide

/-- C4 (amended): invoking with mode `--string` and value `123456789` and
no validate flag prints the decimal number 12577168950296156296 (that is,
0xae8b14860a799888) and exits with status 0, and the same invocation with
`--validate-slow` appended prints the identical number and also exits 0. -/
theorem c4_prints_check_decimal :
    mainRun (fun _ => true) (fun _ => Except.ok []) asciiBytes
        ["crc_64_nvme_checksum", "--string", "123456789"]
      = ([OutLine.checksum 12577168950296156296], 0)
    ∧ mainRun (fun _ => true) (fun _ => Except.ok []) asciiBytes
        ["crc_64_nvme_checksum", "--string", "123456789", "--validate-slow"]
      = ([OutLine.checksum 12577168950296156296], 0) :=
  ⟨by decide, by decide⟩

/-- C6 counterexample: in a five-element argument vector the argument
`--validate-slow` is present, yet `use_slow_validation` is false and the
invocation computes the accelerated digest's checksum. -/
theorem c6_counterexample :
    "--validate-slow"
      ∈ ["crc_64_nvme_checksum", "--string", "123456789", "--validate-slow", "x"]
    ∧ use_slow_validation
        ["crc_64_nvme_checksum", "--string", "123456789", "--validate-slow", "x"] = false
    ∧ mainRun (fun _ => true) (fun _ => Except.ok []) asciiBytes
        ["crc_64_nvme_checksum", "--string", "123456789", "--validate-slow", "x"]
      = ([OutLine.checksum (calculate_crc_64_simd_from_string (asciiBytes "123456789"))], 0) :=
  ⟨by decide, by decide, by decide⟩

/-- C6 (amended): the Reference Digest is selected exactly when the
argument vector has exactly four elements (program name included) and its
fourth element is `--validate-slow`; otherwise the Accelerated Digest is
selected.  The selection is the single boolean `use_slow_validation`,
computed once from the argument vector. -/
theorem c6_flag_gates_selection :
    (∀ args : List String,
      use_slow_validation args = true ↔
        (args.length = 4 ∧ args.getD 3 "" = "--validate-slow"))
    ∧ (∀ (meta : String → Bool) (openRes : String → Except String (List ReadEvent))
        (strBytes : String → List Nat) (prog s : String),
        mainRun meta openRes strBytes [prog, "--string", s, "--validate-slow"]
          = ([OutLine.checksum (calculate_crc_64_validate_from_string (strBytes s))], 0))
    ∧ (∀ (meta : String → Bool) (openRes : String → Except String (List ReadEvent))
        (strBytes : String → List Nat) (prog s : String),
        mainRun meta openRes strBytes [prog, "--string", s]
          = ([OutLine.checksum (calculate_crc_64_simd_from_string (strBytes s))], 0)) := by
  refine ⟨use_slow_iff, ?_, ?_⟩
  · intro meta openRes strBytes prog s
    rfl
  · intro meta openRes strBytes prog s
    rfl

/-- C7: every invocation with fewer than two user arguments (argument
vector shorter than three, program name included), or whose mode selector
is neither `--file` nor `--string`, reports a usage message (the usage
text or the invalid-input-type text), prints no checksum, and exits with
the non-zero status 1. -/
theorem c7_usage_errors :
    ∀ (meta : String → Bool) (openRes : String → Except String (List ReadEvent))
      (strBytes : String → List Nat) (args : List String),
      args.length < 3 ∨ (args.getD 1 "" ≠ "--file" ∧ args.getD 1 "" ≠ "--string") →
      ((mainRun meta openRes strBytes args).1 = [OutLine.usage]
        ∨ (mainRun meta openRes strBytes args).1 = [OutLine.invalidType])
      ∧ (∀ v, OutLine.checksum v ∉ (mainRun meta openRes strBytes args).1)
      ∧ (mainRun meta openRes strBytes args).2 = 1 := by
  intro meta openRes strBytes args h
  by_cases hlen : args.length < 3
  · have hmain : mainRun meta openRes strBytes args = ([OutLine.usage], 1) := by
      unfold mainRun
      rw [if_pos hlen]
    rw [hmain]
    exact ⟨Or.inl rfl, fun v => by simp, rfl⟩
  · rcases h with h | ⟨h1, h2⟩
    · exact absurd h hlen
    · have hmain : mainRun meta openRes strBytes args = ([OutLine.invalidType], 1) := by
        unfold mainRun
        rw [if_neg hlen, if_neg h1, if_neg h2]
      rw [hmain]
      exact ⟨Or.inr rfl, fun v => by simp, rfl⟩

/-- Witness for C7 at the one-element argument vector and at an invalid
mode selector. -/
theorem c7_witness :
    ((mainRun (fun _ => true) (fun _ => Except.ok []) asciiBytes ["prog"]).1
        = [OutLine.usage]
      ∨ (mainRun (fun _ => true) (fun _ => Except.ok []) asciiBytes ["prog"]).1
        = [OutLine.invalidType])
    ∧ (∀ v, OutLine.checksum v
        ∉ (mainRun (fun _ => true) (fun _ => Except.ok []) asciiBytes ["prog"]).1)
    ∧ (mainRun (fun _ => true) (fun _ => Except.ok []) asciiBytes ["prog"]).2 = 1 :=
  c7_usage_errors (fun _ => true) (fun _ => Except.ok []) asciiBytes ["prog"]
    (Or.inl (by decide))

theorem loopSimd_err (chunks : List (List Nat)) (st : Nat) (e : String)
    (rest : List ReadEvent) (hne : ∀ c ∈ chunks, c ≠ []) :
    loopSimd st (chunks.map ReadEvent.chunk ++ ReadEvent.readErr e :: rest)
      = Except.error e := by
  induction chunks generalizing st with
  | nil => rfl
  | cons c cs ih =>
    obtain ⟨b, bs, rfl⟩ : ∃ b bs, c = b :: bs := by
      cases c with
      | nil => exact absurd rfl (hne [] (by simp))
      | cons b bs => exact ⟨b, bs, rfl⟩
    simp only [List.map_cons, List.cons_append, loopSimd]
    exact ih _ fun x hx => hne x (by simp [hx])

theorem loopValidate_err (chunks : List (List Nat)) (st : Nat) (e : String)
    (rest : List ReadEvent) (hne : ∀ c ∈ chunks, c ≠ []) :
    loopValidate st (chunks.map ReadEvent.chunk ++ ReadEvent.readErr e :: rest)
      = Except.error e := by
  induction chunks generalizing st with
  | nil => rfl
  | cons c cs ih =>
    obtain ⟨b, bs, rfl⟩ : ∃ b bs, c = b :: bs := by
      cases c with
      | nil => exact absurd rfl (hne [] (by simp))
      | cons b bs => exact ⟨b, bs, rfl⟩
    simp only [List.map_cons, List.cons_append, loopValidate]
    exact ih _ fun x hx => hne x (by simp [hx])

/-- C8: every invocation in `--file` mode whose path fails the metadata
check is reported with the offending path, prints no checksum, and exits
with a non-zero status. -/
theorem c8_file_not_found :
    ∀ (meta : String → Bool) (openRes : String → Except String (List ReadEvent))
      (strBytes : String → List Nat) (prog path : String) (rest : List String),
      meta path = false →
      mainRun meta openRes strBytes (prog :: "--file" :: path :: rest)
        = ([OutLine.couldNotOpen path], 1)
      ∧ (∀ v, OutLine.checksum v
          ∉ (mainRun meta openRes strBytes (prog :: "--file" :: path :: rest)).1)
      ∧ (mainRun meta openRes strBytes (prog :: "--file" :: path :: rest)).2 ≠ 0 := by
  intro meta openRes strBytes prog path rest hm
  have hmain : mainRun meta openRes strBytes (prog :: "--file" :: path :: rest)
      = ([OutLine.couldNotOpen path], 1) := by
    unfold mainRun
    have hlen : ¬ ((prog :: "--file" :: path :: rest).length < 3) := by
      simp only [List.length_cons]
      omega
    have h1 : (prog :: "--file" :: path :: rest).getD 1 "" = "--file" := rfl
    have h2 : (prog :: "--file" :: path :: rest).getD 2 "" = path := rfl
    rw [if_neg hlen, h1, if_pos rfl, h2, hm, if_pos rfl]
  rw [hmain]
  exact ⟨rfl, fun v => by simp, by simp⟩

/-- Witness for C8 at a missing path. -/
theorem c8_witness :
    mainRun (fun _ => false) (fun _ => Except.ok []) asciiBytes ["p", "--file", "/nope"]
      = ([OutLine.couldNotOpen "/nope"], 1)
    ∧ (∀ v, OutLine.checksum v
        ∉ (mainRun (fun _ => false) (fun _ => Except.ok []) asciiBytes
            ["p", "--file", "/nope"]).1)
    ∧ (mainRun (fun _ => false) (fun _ => Except.ok []) asciiBytes
        ["p", "--file", "/nope"]).2 ≠ 0 :=
  c8_file_not_found (fun _ => false) (fun _ => Except.ok []) asciiBytes "p" "/nope" [] rfl

/-- C9: an I/O error occurring mid-stream during chunked reading (after
zero or more non-empty segments) makes the chunked loop return the error
instead of a checksum — for both digests — and the invocation reports the
offending path with the underlying cause and exits with the non-zero
status 1. -/
theorem c9_read_failure :
    (∀ (st : Nat) (chunks : List (List Nat)) (e : String) (rest : List ReadEvent),
      (∀ c ∈ chunks, c ≠ []) →
      loopSimd st (chunks.map ReadEvent.chunk ++ ReadEvent.readErr e :: rest)
        = Except.error e
      ∧ loopValidate st (chunks.map ReadEvent.chunk ++ ReadEvent.readErr e :: rest)
        = Except.error e)
    ∧ (∀ (meta : String → Bool) (openRes : String → Except String (List ReadEvent))
        (strBytes : String → List Nat) (prog path e : String)
        (chunks : List (List Nat)) (rest : List ReadEvent),
        meta path = true →
        openRes path
          = Except.ok (chunks.map ReadEvent.chunk ++ ReadEvent.readErr e :: rest) →
        (∀ c ∈ chunks, c ≠ []) →
        mainRun meta openRes strBytes [prog, "--file", path]
          = ([OutLine.errorProcessing path e], 1)) := by
  constructor
  · intro st chunks e rest hne
    exact ⟨loopSimd_err chunks st e rest hne, loopValidate_err chunks st e rest hne⟩
  · intro meta openRes strBytes prog path e chunks rest hm hopen hne
    unfold mainRun
    have hlen : ¬ (([prog, "--file", path] : List String).length < 3) := by simp
    have h1 : ([prog, "--file", path] : List String).getD 1 "" = "--file" := rfl
    have h2 : ([prog, "--file", path] : List String).getD 2 "" = path := rfl
    rw [if_neg hlen, h1, if_pos rfl, h2, hm, if_neg (by simp)]
    have hslow : use_slow_validation [prog, "--file", path] = false := rfl
    rw [hslow, if_neg (by simp), hopen]
    have hcalc : calculate_crc_64_simd_from_file
        (Except.ok (chunks.map ReadEvent.chunk ++ ReadEvent.readErr e :: rest))
        = Except.error e := loopSimd_err chunks simdNew e rest hne
    rw [hcalc]

/-- Witness for C9: one two-byte segment is read, then the device fails. -/
theorem c9_witness :
    (loopSimd 0 ([[1, 2]].map ReadEvent.chunk ++ ReadEvent.readErr "boom" :: [])
        = Except.error "boom"
      ∧ loopValidate 0 ([[1, 2]].map ReadEvent.chunk ++ ReadEvent.readErr "boom" :: [])
        = Except.error "boom")
    ∧ mainRun (fun _ => true)
        (fun _ => Except.ok [ReadEvent.chunk [1, 2], ReadEvent.readErr "boom"])
        asciiBytes ["p", "--file", "/dev/bad"]
      = ([OutLine.errorProcessing "/dev/bad" "boom"], 1) :=
  ⟨c9_read_failure.1 0 [[1, 2]] "boom" [] (by decide),
   c9_read_failure.2 (fun _ => true)
    (fun _ => Except.ok [ReadEvent.chunk [1, 2], ReadEvent.readErr "boom"])
    asciiBytes "p" "/dev/bad" "boom" [[1, 2]] [] rfl rfl (by decide)⟩

/-- C10: the `--validate-slow` flag takes effect exactly when the argument
vector has four elements and the fourth equals `--validate-slow`; with
five or more arguments the Accelerated Digest is used even if the flag
appears somewhere, and any other string in the fourth position is silently
ignored (the checksum is still printed, exit status 0) rather than
rejected. -/
theorem c10_flag_position :
    (∀ args : List String,
      use_slow_validation args = true ↔
        (args.length = 4 ∧ args.getD 3 "" = "--validate-slow"))
    ∧ (∀ args : List String, 5 ≤ args.length → use_slow_validation args = false)
    ∧ (∀ (meta : String → Bool) (openRes : String → Except String (List ReadEvent))
        (strBytes : String → List Nat) (prog s other : String),
        other ≠ "--validate-slow" →
        mainRun meta openRes strBytes [prog, "--string", s, other]
          = ([OutLine.checksum (calculate_crc_64_simd_from_string (strBytes s))], 0)) := by
  refine ⟨use_slow_iff, ?_, ?_⟩
  · intro args h5
    cases h : use_slow_validation args with
    | false => rfl
    | true =>
      have h4 := ((use_slow_iff args).mp h).1
      omega
  · intro meta openRes strBytes prog s other hother
    unfold mainRun
    have hlen : ¬ (([prog, "--string", s, other] : List String).length < 3) := by simp
    have h1 : ([prog, "--string", s, other] : List String).getD 1 "" = "--string" := rfl
    rw [if_neg hlen, h1, if_neg (by decide), if_pos rfl]
    have hslow : use_slow_validation [prog, "--string", s, other] = false := by
      cases h : use_slow_validation [prog, "--string", s, other] with
      | false => rfl
      | true => exact absurd ((use_slow_iff _).mp h).2 hother
    rw [hslow, if_neg (by simp)]
    rfl

/-- Witness for C10: a five-element vector containing the flag does not
select slow validation, and a junk fourth argument is ignored. -/
theorem c10_witness :
    use_slow_validation ["p", "--string", "abc", "--validate-slow", "x"] = false
    ∧ mainRun (fun _ => true) (fun _ => Except.ok []) asciiBytes
        ["p", "--string", "abc", "--oops"]
      = ([OutLine.checksum (calculate_crc_64_simd_from_string (asciiBytes "abc"))], 0) :=
  ⟨c10_flag_position.2.1 ["p", "--string", "abc", "--validate-slow", "x"] (by decide),
   c10_flag_position.2.2 (fun _ => true) (fun _ => Except.ok []) asciiBytes
    "p" "abc" "--oops" (by decide)⟩
